import Mathlib

/-! # url-shortener: short-code encoder, temporary codes and the shorten / redirect workflows

A shallow embedding of `main.go`.  Go's `int64` is `Int` with explicit
wrap-around (`wrapInt64`), Go strings (all ASCII here) are `String`, the
SQLite table `urls` is an explicit `Store`, and every database call takes a
flag saying whether the engine reports a failure of its own.
-/

namespace UrlShortener

/-! ## Constants (main.go lines 30-36) -/

/-- The constant `base62Chars` of main.go line 30. -/
def base62Chars : String :=
  "0123456789ABCDEFGHIJKLMNOPQRSTUVWXYZabcdefghijklmnopqrstuvwxyz"

/-- The constant `idOffset` of main.go line 35. -/
def idOffset : Int := 12345678

/-- Largest value of Go's `int64`. -/
def maxInt64 : Int := 9223372036854775807

/-- Two's-complement wrap-around of a mathematical integer into `int64`. -/
def wrapInt64 (x : Int) : Int :=
  (x + 9223372036854775808) % 18446744073709551616 - 9223372036854775808

/-! ## generateShortCode (main.go lines 227-242) -/

/-- The loop `for id > 0 { encoded = string(base62Chars[id%62]) + encoded; id /= 62 }`.
Go's `%` and `/` truncate toward zero (`Int.tmod`, `Int.tdiv`); the first argument
bounds the number of iterations. -/
def encodeLoop : Nat → Int → String → String
  | 0, _, encoded => encoded
  | fuel + 1, id, encoded =>
    if h : id > 0 then
      encodeLoop fuel (Int.tdiv id 62)
        (String.singleton (base62Chars.data.get ⟨(Int.tmod id 62).toNat, by
            rw [show base62Chars.data.length = 62 from rfl,
              Int.tmod_eq_emod (le_of_lt h) (by decide)]
            omega⟩)
          ++ encoded)
    else encoded

/-- The function `generateShortCode(id int64) string`.  An `int64` below `2^63`
is below `62^11`, so 64 iterations are never exhausted (`encodeLoop_fuel`). -/
def generateShortCode (id : Int) : String :=
  let id := wrapInt64 (id + idOffset)
  if id = idOffset then
    String.singleton (base62Chars.data.get ⟨0, by decide⟩)
  else
    encodeLoop 64 id ""

/-! ## generateTempCode (main.go lines 218-225) -/

/-- An `error` value of Go, as far as the handlers tell errors apart:
`sql.ErrNoRows` against everything else. -/
inductive Error where
  | errNoRows
  | failure
deriving DecidableEq, Repr

/-- A byte. -/
abbrev Byte := Fin 256

/-- The encoding table of `base64.URLEncoding` (RFC 4648, section 5). -/
def encodeURL : String :=
  "ABCDEFGHIJKLMNOPQRSTUVWXYZabcdefghijklmnopqrstuvwxyz0123456789-_"

/-- The character `enc.encode[v & 0x3F]`. -/
def encodeSextet (v : Nat) : Char :=
  encodeURL.data.get ⟨v % 64, by
    rw [show encodeURL.data.length = 64 from rfl]; exact Nat.mod_lt _ (by decide)⟩

/-- Go's `base64.URLEncoding.EncodeToString` (standard library `encoding/base64`,
padding character `=`): three bytes give four characters, `val>>18&0x3F` written
`val / 262144 % 64` and so on; a remainder of one or two bytes is padded. -/
def encodeToString : List Byte → List Char
  | b0 :: b1 :: b2 :: rest =>
    let val := b0.val * 65536 + b1.val * 256 + b2.val
    encodeSextet (val / 262144) :: encodeSextet (val / 4096) :: encodeSextet (val / 64)
      :: encodeSextet val :: encodeToString rest
  | [b0, b1] =>
    let val := b0.val * 65536 + b1.val * 256
    [encodeSextet (val / 262144), encodeSextet (val / 4096), encodeSextet (val / 64), '=']
  | [b0] =>
    let val := b0.val * 65536
    [encodeSextet (val / 262144), encodeSextet (val / 4096), '=', '=']
  | [] => []

/-- The function `generateTempCode() (string, error)`.  The argument is what
`rand.Read(b)` does to the 8-byte buffer `b`: an error, or the 8 bytes read. -/
def generateTempCode (randRead : Except Error (Fin 8 → Byte)) : String × Option Error :=
  match randRead with
  | .error err => ("", some err)
  | .ok b => (String.mk ((encodeToString (List.ofFn b)).take 8), none)

/-! ## The table `urls` (main.go lines 48-52) and the statements run against it -/

/-- A row of `urls (id INTEGER PRIMARY KEY AUTOINCREMENT, original TEXT NOT NULL,
short TEXT NOT NULL UNIQUE)`. -/
structure Row where
  id : Int
  original : String
  short : String
deriving DecidableEq, Repr

/-- The contents of the table, oldest row first. -/
abbrev Store := List Row

/-- The rowid an `AUTOINCREMENT` insert assigns: one more than the largest rowid
so far (rows are never deleted), 1 on the empty table. -/
def nextRowId (db : Store) : Int :=
  db.foldl (fun m r => max m r.id) 0 + 1

/-- `db.QueryRow("SELECT short FROM urls WHERE original = ?", longURL).Scan(&shortCode)`:
the scanned value and the error; `engineFails` is a failure of the engine itself.
`QueryRow` keeps the first row of the result, here the oldest matching row. -/
def queryShort (db : Store) (engineFails : Bool) (longURL : String) : String × Option Error :=
  if engineFails then ("", some .failure)
  else match db.find? (fun r => r.original = longURL) with
    | some r => (r.short, none)
    | none => ("", some .errNoRows)

/-- `db.Exec("INSERT INTO urls (original, short) VALUES (?, ?)", longURL, tempCode)`:
refused when the engine fails, when `short` is already taken (UNIQUE) or when the
rowids are used up; otherwise the new table and the rowid of the new row. -/
def execInsert (db : Store) (engineFails : Bool) (original short : String) :
    Option (Store × Int) :=
  if engineFails || db.any (fun r => r.short = short) || decide (maxInt64 < nextRowId db) then
    none
  else
    some (db ++ [{ id := nextRowId db, original := original, short := short }], nextRowId db)

/-- `result.LastInsertId()`. -/
def lastInsertId (rowid : Int) (fails : Bool) : Option Int :=
  if fails then none else some rowid

/-- The table after `SET short = ? WHERE id = ?`, constraints not yet checked. -/
def setShort (db : Store) (short : String) (id : Int) : Store :=
  db.map (fun r => if r.id = id then { r with short := short } else r)

/-- `db.Exec("UPDATE urls SET short = ? WHERE id = ?", shortCode, id)`: refused when
the engine fails or when a row it changes would share `short` with another row
(UNIQUE); a refused statement changes nothing. -/
def execUpdate (db : Store) (engineFails : Bool) (short : String) (id : Int) : Option Store :=
  if engineFails ||
      (db.any (fun r => r.id = id) &&
        decide (2 ≤ ((setShort db short id).filter (fun r => r.short = short)).length)) then
    none
  else
    some (setShort db short id)

/-! ## The handlers (main.go lines 157-216 and 244-271) -/

/-- What a handler writes: `http.Redirect(w, r, location, status)` or
`http.Error(w, message, status)`. -/
inductive Response where
  | redirect (location : String) (status : Nat)
  | error (message : String) (status : Nat)
deriving DecidableEq, Repr

/-- A handler succeeded when it answered with a redirect, not with `http.Error`. -/
def Response.isRedirect : Response → Bool
  | .redirect _ _ => true
  | .error _ _ => false

/-- The process-wide flag `useHTTPS` and the two `net/url` functions the handlers
call, which are not part of the repository: `parseRequestURI u` says whether
`url.ParseRequestURI(u)` returns a nil error, `queryEscape` is `url.QueryEscape`. -/
structure Env where
  useHTTPS : Bool
  parseRequestURI : String → Bool
  queryEscape : String → String

/-- What the outside world does during one shorten request: the result of
`rand.Read` and, for each database call, whether the engine fails. -/
structure Outcome where
  randRead : Except Error (Fin 8 → Byte)
  queryFails : Bool
  insertFails : Bool
  lastInsertIdFails : Bool
  updateFails : Bool

/-- Lines 207-215: compose the short URL and redirect to the home page. -/
def shortRedirect (env : Env) (host shortCode : String) : Response :=
  let scheme := if env.useHTTPS then "https" else "http"
  let shortURL := scheme ++ "://" ++ host ++ "/" ++ shortCode
  .redirect ("/?short=" ++ env.queryEscape shortURL) 303

/-- The function `shortenHandler`: `host` is `r.Host`, `longURL` is
`r.FormValue("url")`; the result is the response and the table afterwards. -/
def shortenHandler (env : Env) (o : Outcome) (host longURL : String) (db : Store) :
    Response × Store :=
  if env.parseRequestURI longURL = false then
    (.error "Invalid URL" 400, db)
  else
    match queryShort db o.queryFails longURL with
    | (shortCode, none) => (shortRedirect env host shortCode, db)
    | (_, some .failure) => (.error "Database error" 500, db)
    | (_, some .errNoRows) =>
      match generateTempCode o.randRead with
      | (_, some _) => (.error "Error generating temporary code" 500, db)
      | (tempCode, none) =>
        match execInsert db o.insertFails longURL tempCode with
        | none => (.error "Error saving URL" 500, db)
        | some (db1, result) =>
          match lastInsertId result o.lastInsertIdFails with
          | none => (.error "Error getting insert ID" 500, db1)
          | some id =>
            let shortCode := generateShortCode id
            match execUpdate db1 o.updateFails shortCode id with
            | none => (.error "Error updating short code" 500, db1)
            | some db2 => (shortRedirect env host shortCode, db2)

/-- The function `getLongURL`, reading the table `db`. -/
def getLongURL (db : Store) (engineFails : Bool) (shortCode : String) : String × Option Error :=
  if engineFails then ("", some .failure)
  else match db.find? (fun r => r.short = shortCode) with
    | some r => (r.original, none)
    | none => ("", some .errNoRows)

/-- The function `redirectHandler`: `shortCode` is `mux.Vars(r)["shortCode"]`. -/
def redirectHandler (env : Env) (engineFails : Bool) (shortCode : String) (db : Store) :
    Response × Store :=
  match getLongURL db engineFails shortCode with
  | (_, some err) =>
    if err = .errNoRows then
      (.redirect ("/?error=" ++ env.queryEscape "Short URL not found") 303, db)
    else
      (.error "Database error" 500, db)
  | (longURL, none) => (.redirect longURL 301, db)

/-! ## The service as a transition system -/

/-- A request served by the process. -/
inductive Request where
  | shorten (o : Outcome) (host longURL : String)
  | resolve (engineFails : Bool) (shortCode : String)

/-- One request, served to completion. -/
def step (env : Env) (db : Store) : Request → Response × Store
  | .shorten o host longURL => shortenHandler env o host longURL db
  | .resolve engineFails shortCode => redirectHandler env engineFails shortCode db

/-- Serve the requests one after the other; the responses in order and the final table. -/
def run (env : Env) : Store → List Request → List Response × Store
  | db, [] => ([], db)
  | db, req :: rest =>
    let (resp, db1) := step env db req
    let (resps, db2) := run env db1 rest
    (resp :: resps, db2)

/-! ## url.ParseRequestURI (Go standard library `net/url`, called at main.go line 161)

The library works on bytes; every byte it tests is ASCII and the bytes of a non-ASCII
character are all above 0x7f, so the tests are made on characters. -/

/-- The function `stringContainsCTLByte`: some byte is below 0x20 or is 0x7f. -/
def stringContainsCTLByte (s : List Char) : Bool :=
  s.any (fun c => decide (c.toNat < 32) || decide (c.toNat = 127))

/-- The loop of `getScheme(rawURL)`, at position `i` with the bytes from `i` on:
`none` is the error "missing protocol scheme", otherwise the scheme and the rest. -/
def getSchemeFrom (rawURL : List Char) : List Char → Nat → Option (List Char × List Char)
  | [], _ => some ([], rawURL)
  | c :: cs, i =>
    if c.isAlpha then getSchemeFrom rawURL cs (i + 1)
    else if c.isDigit || c == '+' || c == '-' || c == '.' then
      if i = 0 then some ([], rawURL) else getSchemeFrom rawURL cs (i + 1)
    else if c == ':' then
      if i = 0 then none else some (rawURL.take i, rawURL.drop (i + 1))
    else some ([], rawURL)

/-- The function `getScheme`. -/
def getScheme (rawURL : List Char) : Option (List Char × List Char) :=
  getSchemeFrom rawURL rawURL 0

/-- The function `ishex`. -/
def ishex (c : Char) : Bool :=
  c.isDigit || (decide ('a' ≤ c) && decide (c ≤ 'f')) || (decide ('A' ≤ c) && decide (c ≤ 'F'))

/-- Whether `unescape(p, encodePath)`, called by `setPath`, returns a nil error: every
`%` is followed by two hexadecimal digits. -/
def unescapePathOk : List Char → Bool
  | [] => true
  | c :: rest =>
    if c = '%' then
      match rest with
      | h1 :: h2 :: rest2 => ishex h1 && ishex h2 && unescapePathOk rest2
      | _ => false
    else unescapePathOk rest

/-- The query is split off: a single trailing `?` is dropped (`ForceQuery`), otherwise
`strings.Cut(rest, "?")` keeps what stands before the first `?`. -/
def cutQuery (rest : List Char) : List Char :=
  if rest.getLast? = some '?' && rest.count '?' = 1 then rest.dropLast
  else rest.takeWhile (fun c => c != '?')

/-- Whether `url.ParseRequestURI(rawURL)`, that is `parse(rawURL, true)`, returns a nil
error.  `parseAuthority` says the same of the library function of that name, which is
reached only for a URL with a scheme followed by `//`. -/
def parseRequestURI (parseAuthority : String → Bool) (rawURL : String) : Bool :=
  if stringContainsCTLByte rawURL.data then false
  else if rawURL = "" then false
  else if rawURL = "*" then true
  else
    match getScheme rawURL.data with
    | none => false
    | some (scheme, rest0) =>
      let rest := cutQuery rest0
      if rest.head? ≠ some '/' then
        if scheme ≠ [] then true else false
      else if scheme ≠ [] ∧ rest.take 2 = ['/', '/'] then
        let authority := rest.drop 2
        if parseAuthority (String.mk (authority.takeWhile (fun c => c != '/'))) = false then
          false
        else unescapePathOk (authority.dropWhile (fun c => c != '/'))
      else unescapePathOk rest

/-- The environment whose validator is `url.ParseRequestURI`. -/
def netURLEnv (useHTTPS : Bool) (parseAuthority : String → Bool)
    (queryEscape : String → String) : Env where
  useHTTPS := useHTTPS
  parseRequestURI := parseRequestURI parseAuthority
  queryEscape := queryEscape

/-- A character allowed in a scheme after the first (RFC 3986, section 3.1). -/
def schemeChar (c : Char) : Bool :=
  c.isAlpha || c.isDigit || c == '+' || c == '-' || c == '.'

/-- A URL has a scheme when a `:` occurs in it and what stands before the first `:` is
a letter followed by letters, digits, `+`, `-` or `.` (RFC 3986, section 3.1); an
absolute URL is one with a scheme. -/
def hasSchemeChars (u : List Char) : Bool :=
  (u.dropWhile (fun c => c != ':')).head? == some ':' &&
    match u.takeWhile (fun c => c != ':') with
    | [] => false
    | c :: cs => c.isAlpha && cs.all schemeChar

/-- The same of a string. -/
def hasScheme (u : String) : Bool := hasSchemeChars u.data

/-! ## A concrete environment for worked instances -/

/-- A stand-in for the `net/url` functions: the validator accepts what starts with
`http://` or `https://`, the escaping function leaves its argument as it is. -/
def sampleEnv : Env where
  useHTTPS := false
  parseRequestURI := fun u =>
    "http://".data.isPrefixOf u.data || "https://".data.isPrefixOf u.data
  queryEscape := fun u => u

/-- A request during which nothing fails and the entropy source delivers the bytes
0, 1, ..., 7. -/
def sampleOutcome : Outcome where
  randRead := .ok (fun i => ⟨i.val, by omega⟩)
  queryFails := false
  insertFails := false
  lastInsertIdFails := false
  updateFails := false

/-! ## Reference notions the encoder is compared with -/

/-- The character standing for the base-62 digit `d` (the character at position `d`
of the alphabet). -/
def base62Digit (d : Nat) : Char := base62Chars.data.getD d '0'

/-- The base-62 numeral of `n`, most significant digit first, over the alphabet
0-9, A-Z, a-z; the numeral of 0 is empty. -/
def base62Numeral (n : Nat) : String :=
  String.mk ((Nat.digits 62 n).reverse.map base62Digit)

/-- The value of an alphabet character as a base-62 digit. -/
def base62Value (c : Char) : Nat := base62Chars.data.indexOf c

/-- Read a string as a base-62 number, most significant digit first. -/
def readBase62 (s : String) : Nat :=
  s.data.foldl (fun acc c => acc * 62 + base62Value c) 0

/-- Membership in the URL-safe base64 alphabet A-Z, a-z, 0-9, `-`, `_`. -/
def urlSafeChar (c : Char) : Bool :=
  c.isUpper || c.isLower || c.isDigit || c == '-' || c == '_'

/-- The value RFC 4648 (table 2, "URL and filename safe" alphabet) gives a character:
`A`-`Z` are 0-25, `a`-`z` are 26-51, `0`-`9` are 52-61, `-` is 62 and `_` is 63.
Written from the character ranges, not from the table `encodeURL`. -/
def urlSafeValue (c : Char) : Nat :=
  if c.isUpper then c.toNat - 65
  else if c.isLower then c.toNat - 97 + 26
  else if c.isDigit then c.toNat - 48 + 52
  else if c = '-' then 62
  else 63

/-- Read a string of base64 characters as a number, six bits a character, most
significant character first. -/
def readBase64 (cs : List Char) : Nat :=
  cs.foldl (fun acc c => acc * 64 + urlSafeValue c) 0

/-! ## Lemmas on the encoder -/

theorem base62Chars_length : base62Chars.data.length = 62 := by decide

theorem encodeURL_length : encodeURL.data.length = 64 := by decide

theorem base62Value_digit : ∀ d, d < 62 → base62Value (base62Digit d) = d := by
  decide

theorem base62Digit_ne_zero : ∀ d, d < 62 → d ≠ 0 → base62Digit d ≠ '0' := by
  decide

/-- The loop writes the base-62 digits of a natural number in front of the
accumulator, provided the iteration bound covers the number of digits. -/
theorem encodeLoop_nat (fuel : Nat) : ∀ (n : Nat) (encoded : String), n < 62 ^ fuel →
    encodeLoop fuel (n : Int) encoded
      = String.mk ((Nat.digits 62 n).reverse.map base62Digit ++ encoded.data) := by
  induction fuel with
  | zero =>
    intro n encoded hn
    have h0 : n = 0 := by simpa using hn
    subst h0
    simp [encodeLoop]
  | succ fuel ih =>
    intro n encoded hn
    by_cases hpos : 0 < n
    · have hq : n / 62 < 62 ^ fuel := by
        rw [Nat.div_lt_iff_lt_mul (by decide)]
        calc n < 62 ^ (fuel + 1) := hn
          _ = 62 ^ fuel * 62 := by ring
      have hi : ((n : Int) > 0) := by exact_mod_cast hpos
      have hd : Nat.digits 62 n = (n % 62) :: Nat.digits 62 (n / 62) :=
        Nat.digits_def' (by decide) hpos
      have hdiv : Int.tdiv (n : Int) 62 = ((n / 62 : Nat) : Int) := (Int.ofNat_tdiv n 62).symm
      have hmod : (Int.tmod (n : Int) 62).toNat = n % 62 := by
        have : Int.tmod (n : Int) 62 = ((n % 62 : Nat) : Int) := (Int.ofNat_tmod n 62).symm
        rw [this]; rfl
      unfold encodeLoop
      rw [dif_pos hi]
      simp only [hdiv, hmod]
      rw [ih (n / 62) _ hq, hd]
      have hlt : n % 62 < base62Chars.data.length := by
        rw [base62Chars_length]; exact Nat.mod_lt _ (by decide)
      have hget : base62Chars.data[n % 62] = base62Digit (n % 62) := by
        unfold base62Digit
        rw [List.getD_eq_getElem _ _ hlt]
      simp [hget]
    · have h0 : n = 0 := by omega
      subst h0
      simp [encodeLoop]

/-- The loop with an accumulator that starts empty returns the base-62 numeral. -/
theorem encodeLoop_numeral (fuel n : Nat) (hn : n < 62 ^ fuel) :
    encodeLoop fuel (n : Int) "" = base62Numeral n := by
  rw [encodeLoop_nat fuel n "" hn]
  simp [base62Numeral]

/-- A non-positive value leaves the accumulator as it is. -/
theorem encodeLoop_nonpos (fuel : Nat) (id : Int) (encoded : String) (h : id ≤ 0) :
    encodeLoop fuel id encoded = encoded := by
  cases fuel with
  | zero => rfl
  | succ fuel =>
    unfold encodeLoop
    rw [dif_neg (by omega)]

/-- Every `int64` is below `62 ^ 11`: eleven iterations and any larger bound,
such as the 64 of `generateShortCode`, give the same result. -/
theorem encodeLoop_fuel (fuel : Nat) (hf : 11 ≤ fuel) (id : Int) (hid : id ≤ maxInt64)
    (encoded : String) : encodeLoop fuel id encoded = encodeLoop 11 id encoded := by
  by_cases hpos : 0 < id
  · obtain ⟨n, rfl⟩ := Int.eq_ofNat_of_zero_le (le_of_lt hpos)
    have hn : n < 62 ^ 11 := by
      have : (n : Int) ≤ 9223372036854775807 := hid
      have h2 : n ≤ 9223372036854775807 := by exact_mod_cast this
      calc n ≤ 9223372036854775807 := h2
        _ < 62 ^ 11 := by norm_num
    have hn2 : n < 62 ^ fuel :=
      lt_of_lt_of_le hn (Nat.pow_le_pow_right (by decide) hf)
    rw [encodeLoop_nat fuel n encoded hn2, encodeLoop_nat 11 n encoded hn]
  · rw [encodeLoop_nonpos _ _ _ (by omega), encodeLoop_nonpos _ _ _ (by omega)]

theorem wrapInt64_of_inRange (x : Int) (h0 : -9223372036854775808 ≤ x)
    (h1 : x ≤ 9223372036854775807) : wrapInt64 x = x := by
  unfold wrapInt64
  omega

/-- Without overflow and away from 0 the result is the base-62 numeral of `id + idOffset`. -/
theorem generateShortCode_numeral (id : Int) (h1 : 1 ≤ id) (h2 : id + 12345678 ≤ maxInt64) :
    generateShortCode id = base62Numeral (id + 12345678).toNat := by
  have h2a : id + 12345678 ≤ 9223372036854775807 := h2
  unfold generateShortCode
  simp only [idOffset]
  rw [wrapInt64_of_inRange _ (by omega) h2a, if_neg (by omega)]
  obtain ⟨n, hn⟩ := Int.eq_ofNat_of_zero_le (show (0 : Int) ≤ id + 12345678 by omega)
  rw [hn]
  have hlt : n < 62 ^ 64 := by
    have h3 : (n : Int) ≤ 9223372036854775807 := by omega
    have h4 : n ≤ 9223372036854775807 := by exact_mod_cast h3
    calc n ≤ 9223372036854775807 := h4
      _ < 62 ^ 64 := by norm_num
  simpa using encodeLoop_numeral 64 n hlt

theorem readBase62_foldl (ds : List Nat) (hds : ∀ d ∈ ds, d < 62) (acc : Nat) :
    (ds.reverse.map base62Digit).foldl (fun a c => a * 62 + base62Value c) acc
      = acc * 62 ^ ds.length + Nat.ofDigits 62 ds := by
  induction ds generalizing acc with
  | nil => simp
  | cons d ds ih =>
    have hd : d < 62 := hds d (List.mem_cons_self _ _)
    have hrest : ∀ x ∈ ds, x < 62 := fun x hx => hds x (List.mem_cons_of_mem _ hx)
    simp only [List.reverse_cons, List.map_append, List.map_cons, List.map_nil,
      List.foldl_append, List.foldl_cons, List.foldl_nil, List.length_cons]
    rw [ih hrest acc, base62Value_digit d hd, Nat.ofDigits_cons]
    ring

/-- Reading a base-62 numeral back gives the number. -/
theorem readBase62_numeral (n : Nat) : readBase62 (base62Numeral n) = n := by
  unfold readBase62 base62Numeral
  rw [readBase62_foldl _ (fun d hd => Nat.digits_lt_base (by decide) hd) 0]
  simp [Nat.ofDigits_digits]

/-- A numeral of a positive number is non-empty and does not start with `0`. -/
theorem base62Numeral_head (n : Nat) (hn : n ≠ 0) :
    ∃ c cs, (base62Numeral n).data = c :: cs ∧ c ≠ '0' := by
  have hne : Nat.digits 62 n ≠ [] := Nat.digits_ne_nil_iff_ne_zero.mpr hn
  have hlast := Nat.getLast_digit_ne_zero 62 hn
  have hmem : (Nat.digits 62 n).getLast hne ∈ Nat.digits 62 n := List.getLast_mem hne
  have hlt : (Nat.digits 62 n).getLast hne < 62 := Nat.digits_lt_base (by decide) hmem
  obtain ⟨init, hinit⟩ : ∃ init, Nat.digits 62 n = init ++ [(Nat.digits 62 n).getLast hne] :=
    ⟨(Nat.digits 62 n).dropLast, (List.dropLast_append_getLast hne).symm⟩
  refine ⟨base62Digit ((Nat.digits 62 n).getLast hne), init.reverse.map base62Digit, ?_,
    base62Digit_ne_zero _ hlt hlast⟩
  unfold base62Numeral
  conv_lhs => rw [hinit]
  simp

/-- The length of a numeral is the number of base-62 digits. -/
theorem base62Numeral_length (n : Nat) :
    (base62Numeral n).length = (Nat.digits 62 n).length := by
  simp [base62Numeral, String.length]

/-- Length of the result without overflow and away from 0. -/
theorem generateShortCode_length (id : Int) (h1 : 1 ≤ id) (h2 : id + 12345678 ≤ maxInt64) :
    (generateShortCode id).length = Nat.log 62 (id + 12345678).toNat + 1 := by
  rw [generateShortCode_numeral id h1 h2, base62Numeral_length,
    Nat.digits_len 62 _ (by decide) (by omega)]

/-- Reading the result back gives `id + idOffset`. -/
theorem readBase62_generateShortCode (id : Int) (h1 : 1 ≤ id)
    (h2 : id + 12345678 ≤ maxInt64) :
    (readBase62 (generateShortCode id) : Int) = id + 12345678 := by
  rw [generateShortCode_numeral id h1 h2, readBase62_numeral]
  omega

theorem generateShortCode_zero : generateShortCode 0 = "0" := by decide

/-- Injectivity on the identifiers whose shifted value fits in `int64`. -/
theorem generateShortCode_inj (n m : Int) (hn : 0 ≤ n) (hn2 : n + 12345678 ≤ maxInt64)
    (hm : 0 ≤ m) (hm2 : m + 12345678 ≤ maxInt64)
    (h : generateShortCode n = generateShortCode m) : n = m := by
  have key : ∀ k : Int, 1 ≤ k → k + 12345678 ≤ maxInt64 → generateShortCode k ≠ "0" := by
    intro k hk1 hk2 hk
    have hr := readBase62_generateShortCode k hk1 hk2
    rw [hk] at hr
    have h0 : readBase62 "0" = 0 := by decide
    rw [h0] at hr
    omega
  by_cases hn0 : n = 0
  · by_cases hm0 : m = 0
    · omega
    · subst hn0
      rw [generateShortCode_zero] at h
      exact absurd h.symm (key m (by omega) hm2)
  · by_cases hm0 : m = 0
    · subst hm0
      rw [generateShortCode_zero] at h
      exact absurd h (key n (by omega) hn2)
    · have e1 := readBase62_generateShortCode n (by omega) hn2
      have e2 := readBase62_generateShortCode m (by omega) hm2
      rw [h] at e1
      omega

/-! ## Lemmas on the temporary code -/

theorem encodeSextet_urlSafe (v : Nat) : urlSafeChar (encodeSextet v) = true ∧
    encodeSextet v ≠ '=' := by
  have h : ∀ i : Fin 64, urlSafeChar (encodeURL.data.getD i.val 'A') = true ∧
      encodeURL.data.getD i.val 'A' ≠ '=' := by decide
  have hv : v % 64 < 64 := Nat.mod_lt _ (by decide)
  have e : encodeSextet v = encodeURL.data.getD (v % 64) 'A' := by
    unfold encodeSextet
    rw [List.getD_eq_getElem _ _ (by rw [encodeURL_length]; exact hv)]
    rfl
  rw [e]
  exact h ⟨v % 64, hv⟩

theorem urlSafeValue_encodeSextet (v : Nat) : urlSafeValue (encodeSextet v) = v % 64 := by
  have h : ∀ i : Fin 64, urlSafeValue (encodeURL.data.getD i.val 'A') = i.val := by decide
  have hv : v % 64 < 64 := Nat.mod_lt _ (by decide)
  have e : encodeSextet v = encodeURL.data.getD (v % 64) 'A' := by
    unfold encodeSextet
    rw [List.getD_eq_getElem _ _ (by rw [encodeURL_length]; exact hv)]
    rfl
  rw [e]
  exact h ⟨v % 64, hv⟩

/-- The eight characters of a temporary code, written out. -/
theorem generateTempCode_ok (b : Fin 8 → Byte) :
    generateTempCode (.ok b) =
      (String.mk
        [encodeSextet (((b 0).val * 65536 + (b 1).val * 256 + (b 2).val) / 262144),
         encodeSextet (((b 0).val * 65536 + (b 1).val * 256 + (b 2).val) / 4096),
         encodeSextet (((b 0).val * 65536 + (b 1).val * 256 + (b 2).val) / 64),
         encodeSextet ((b 0).val * 65536 + (b 1).val * 256 + (b 2).val),
         encodeSextet (((b 3).val * 65536 + (b 4).val * 256 + (b 5).val) / 262144),
         encodeSextet (((b 3).val * 65536 + (b 4).val * 256 + (b 5).val) / 4096),
         encodeSextet (((b 3).val * 65536 + (b 4).val * 256 + (b 5).val) / 64),
         encodeSextet ((b 3).val * 65536 + (b 4).val * 256 + (b 5).val)], none) := rfl

theorem generateTempCode_length (b : Fin 8 → Byte) :
    (generateTempCode (.ok b)).1.length = 8 := by
  rw [generateTempCode_ok]; rfl

/-! ## Lemmas on the table and the handlers -/

theorem foldl_max_id_ge (db : Store) : ∀ init : Int,
    init ≤ db.foldl (fun m r => max m r.id) init ∧
      ∀ r ∈ db, r.id ≤ db.foldl (fun m r => max m r.id) init := by
  induction db with
  | nil => intro init; simp
  | cons x xs ih =>
    intro init
    obtain ⟨h1, h2⟩ := ih (max init x.id)
    simp only [List.foldl_cons, List.mem_cons]
    refine ⟨le_trans (le_max_left _ _) h1, ?_⟩
    intro r hr
    rcases hr with rfl | hr
    · exact le_trans (le_max_right _ _) h1
    · exact h2 r hr

/-- The rowid of a new row is larger than every rowid in the table. -/
theorem nextRowId_fresh (db : Store) : ∀ r ∈ db, r.id < nextRowId db := by
  intro r hr
  have := (foldl_max_id_ge db 0).2 r hr
  unfold nextRowId
  omega

/-- Updating the row just appended, whose rowid no other row has. -/
theorem setShort_append_fresh (db : Store) (id : Int) (original tmp short : String)
    (hfresh : ∀ r ∈ db, r.id ≠ id) :
    setShort (db ++ [Row.mk id original tmp]) short id
      = db ++ [Row.mk id original short] := by
  have hmap : db.map (fun r : Row => if r.id = id then { r with short := short } else r) = db := by
    conv_rhs => rw [← List.map_id db]
    apply List.map_congr_left
    intro r hr
    simp [hfresh r hr]
  simp [setShort, hmap]

theorem execInsert_some (db : Store) (f : Bool) (original short : String)
    (p : Store × Int) (h : execInsert db f original short = some p) :
    p = (db ++ [Row.mk (nextRowId db) original short], nextRowId db) := by
  unfold execInsert at h
  split at h
  · exact absurd h (by simp)
  · exact (Option.some.inj h).symm

theorem execUpdate_some (db db2 : Store) (f : Bool) (short : String) (id : Int)
    (h : execUpdate db f short id = some db2) :
    db2 = setShort db short id ∧
      ((∃ r ∈ db, r.id = id) →
        ((setShort db short id).filter (fun r : Row => r.short = short)).length < 2) := by
  unfold execUpdate at h
  split at h
  · exact absurd h (by simp)
  · rename_i hc
    refine ⟨(Option.some.inj h).symm, ?_⟩
    intro hex
    simp only [Bool.or_eq_true, Bool.and_eq_true, List.any_eq_true, decide_eq_true_eq,
      not_or, not_and, not_le] at hc
    exact hc.2 hex

/-- The two ways `shortenHandler` answers with a redirect: the URL was in the table,
or a row was inserted and then given its final code. -/
theorem shortenHandler_redirect_cases (env : Env) (o : Outcome) (host longURL : String)
    (db : Store) (h : (shortenHandler env o host longURL db).1.isRedirect = true) :
    env.parseRequestURI longURL = true ∧ o.queryFails = false ∧
    ((∃ r, db.find? (fun r : Row => r.original = longURL) = some r ∧
        shortenHandler env o host longURL db = (shortRedirect env host r.short, db)) ∨
     (db.find? (fun r : Row => r.original = longURL) = none ∧
        ((db ++ [Row.mk (nextRowId db) longURL (generateShortCode (nextRowId db))]).filter
            (fun r : Row => r.short = generateShortCode (nextRowId db))).length < 2 ∧
        shortenHandler env o host longURL db =
          (shortRedirect env host (generateShortCode (nextRowId db)),
           db ++ [Row.mk (nextRowId db) longURL (generateShortCode (nextRowId db))]))) := by
  have hfresh : ∀ r ∈ db, r.id ≠ nextRowId db := fun r hr =>
    ne_of_lt (nextRowId_fresh db r hr)
  cases hv : env.parseRequestURI longURL with
  | false => simp [shortenHandler, hv, Response.isRedirect] at h
  | true =>
    cases hq : o.queryFails with
    | true => simp [shortenHandler, hv, queryShort, hq, Response.isRedirect] at h
    | false =>
      refine ⟨rfl, rfl, ?_⟩
      cases hf : db.find? (fun r : Row => r.original = longURL) with
      | some r =>
        left
        exact ⟨r, rfl, by simp [shortenHandler, hv, queryShort, hq, hf]⟩
      | none =>
        right
        refine ⟨rfl, ?_⟩
        cases hr : o.randRead with
        | error e =>
          simp [shortenHandler, hv, queryShort, hq, hf, generateTempCode, hr,
            Response.isRedirect] at h
        | ok b =>
          cases hi : execInsert db o.insertFails longURL (generateTempCode (.ok b)).1 with
          | none =>
            simp [shortenHandler, hv, queryShort, hq, hf, hr, generateTempCode_ok,
              Response.isRedirect] at h hi
            simp [hi] at h
          | some p =>
            have hp := execInsert_some _ _ _ _ _ hi
            subst hp
            cases hl : o.lastInsertIdFails with
            | true =>
              simp [shortenHandler, hv, queryShort, hq, hf, hr, generateTempCode_ok,
                Response.isRedirect] at h hi
              simp [hi, lastInsertId, hl] at h
            | false =>
              cases hu : execUpdate (db ++ [Row.mk (nextRowId db) longURL
                  (generateTempCode (.ok b)).1]) o.updateFails
                  (generateShortCode (nextRowId db)) (nextRowId db) with
              | none =>
                simp [shortenHandler, hv, queryShort, hq, hf, hr, generateTempCode_ok,
                  Response.isRedirect] at h hi hu
                simp [hi, lastInsertId, hl, hu] at h
              | some db2 =>
                obtain ⟨hdb2, hcount⟩ := execUpdate_some _ _ _ _ _ hu
                rw [setShort_append_fresh db _ _ _ _ hfresh] at hdb2 hcount
                subst hdb2
                refine ⟨hcount ⟨_, List.mem_append_right _ (List.mem_singleton_self _), rfl⟩, ?_⟩
                simp only [shortenHandler, hv, queryShort, hq, hf, hr, generateTempCode_ok]
                simp only [generateTempCode_ok] at hi hu
                simp [hi, lastInsertId, hl, hu]

/-- After the update, the rows holding `short` are the rows with the updated rowid,
as long as no other row held `short` before. -/
theorem setShort_filter_length (db : Store) (short : String) (id : Int)
    (hother : ∀ r ∈ db, r.id ≠ id → r.short ≠ short) :
    ((setShort db short id).filter (fun r : Row => r.short = short)).length
      = (db.filter (fun r : Row => r.id = id)).length := by
  induction db with
  | nil => rfl
  | cons x xs ih =>
    have hxs : ∀ r ∈ xs, r.id ≠ id → r.short ≠ short := fun r hr =>
      hother r (List.mem_cons_of_mem _ hr)
    have ih2 := ih hxs
    unfold setShort at ih2 ⊢
    by_cases hx : x.id = id
    · simp [hx, ih2]
    · have := hother x (List.mem_cons_self _ _) hx
      simp [hx, this, ih2]

/-- A unique holder of a value is what `find?` returns. -/
theorem find_append_new (db : Store) (x : Row) (p : Row → Bool) (hx : p x = true)
    (hdb : ∀ r ∈ db, p r = false) : (db ++ [x]).find? p = some x := by
  induction db with
  | nil => simp [hx]
  | cons y ys ih =>
    have hy : p y = false := hdb y (List.mem_cons_self _ _)
    have := ih (fun r hr => hdb r (List.mem_cons_of_mem _ hr))
    simp [List.find?_cons, hy, this]

theorem filter_append_new (db : Store) (x : Row) (p : Row → Bool) (hx : p x = true)
    (hdb : ∀ r ∈ db, p r = false) : (db ++ [x]).filter p = [x] := by
  have h1 : db.filter p = [] := by
    rw [List.filter_eq_nil_iff]
    intro r hr
    simp [hdb r hr]
  simp [List.filter_append, h1, hx]

/-- When the rows holding `short` in `db ++ [x]` are fewer than two and `x` holds it,
no row of `db` does. -/
theorem no_other_holder (db : Store) (x : Row) (short : String) (hx : x.short = short)
    (hlen : ((db ++ [x]).filter (fun r : Row => r.short = short)).length < 2) :
    ∀ r ∈ db, decide (r.short = short) = false := by
  intro r hr
  by_contra hc
  have hrs : r.short = short := by simpa using hc
  have hmem : r ∈ db.filter (fun r : Row => r.short = short) := by
    simp [List.mem_filter, hr, hrs]
  have hpos : 0 < (db.filter (fun r : Row => r.short = short)).length :=
    List.length_pos_of_mem hmem
  simp only [List.filter_append, List.length_append] at hlen
  have : ([x].filter (fun r : Row => r.short = short)).length = 1 := by simp [hx]
  omega

theorem shortRedirect_injective (env : Env) (hinj : Function.Injective env.queryEscape)
    (host c1 c2 : String) (h : shortRedirect env host c1 = shortRedirect env host c2) :
    c1 = c2 := by
  unfold shortRedirect at h
  simp only [Response.redirect.injEq, and_true] at h
  have h1 := hinj (String.ext (List.append_cancel_left (congrArg String.data h)))
  exact String.ext (List.append_cancel_left (congrArg String.data h1))

/-! ## Claims about the encoder -/

/-- Claim C1, evaluated on the code: on the seven identifiers of the table in
`TestGenerateShortCode` the encoder returns "0", "pnfr", "pngl", "pngm", "qJn4", "tzos"
and "16VhM6", and none of them is the string the table expects. -/
theorem generateShortCode_test_table :
    [0, 1, 57, 58, 123456, 1000000, 1000000000].map generateShortCode
        = ["0", "pnfr", "pngl", "pngm", "qJn4", "tzos", "16VhM6"] ∧
      generateShortCode 0 ≠ "26GwX" ∧ generateShortCode 1 ≠ "26GwY" ∧
      generateShortCode 57 ≠ "26GxW" ∧ generateShortCode 58 ≠ "26GxX" ∧
      generateShortCode 123456 ≠ "26ue5" ∧ generateShortCode 1000000 ≠ "2BQCu" ∧
      generateShortCode 1000000000 ≠ "2YTY6q" := by
  decide

/-- Claim C2 as stated fails: the two largest `int64` identifiers are distinct and
non-negative, the addition of the offset wraps to a negative value for both, and both
are encoded as the empty string. -/
theorem generateShortCode_collision_on_overflow :
    ¬ (∀ n m : Int, 0 ≤ n → n ≤ maxInt64 → 0 ≤ m → m ≤ maxInt64 → n ≠ m →
        generateShortCode n ≠ generateShortCode m) := by
  intro h
  exact h 9223372036854775807 9223372036854775806 (by decide) (by decide) (by decide)
    (by decide) (by decide) (by decide)

/-- Claim C2, amended: on identifiers `n`, `m` that are non-negative and whose shifted
value `id + 12345678` still fits in `int64`, distinct identifiers get distinct codes. -/
theorem generateShortCode_injective (n m : Int) (hn : 0 ≤ n)
    (hn2 : n + 12345678 ≤ maxInt64) (hm : 0 ≤ m) (hm2 : m + 12345678 ≤ maxInt64)
    (hne : n ≠ m) : generateShortCode n ≠ generateShortCode m :=
  fun h => hne (generateShortCode_inj n m hn hn2 hm hm2 h)

theorem generateShortCode_injective_witness :
    generateShortCode 0 ≠ generateShortCode 1 :=
  generateShortCode_injective 0 1 (by decide) (by decide) (by decide) (by decide) (by decide)

theorem base62Digit_mem : ∀ d, d < 62 → base62Digit d ∈ base62Chars.data := by
  decide

/-- Claim C3: `generateShortCode 0` is "0", and for `id ≥ 1` with
`id + 12345678 ≤ MaxInt64` the result is the base-62 numeral of `id + 12345678`, most
significant digit first, made of alphabet characters, non-empty, not starting with
the character 0, and read back as a base-62 number it is `id + 12345678`. -/
theorem generateShortCode_is_base62 (id : Int) (h1 : 1 ≤ id)
    (h2 : id + 12345678 ≤ maxInt64) :
    generateShortCode 0 = "0" ∧
      generateShortCode id = base62Numeral (id + 12345678).toNat ∧
      (∀ c ∈ (generateShortCode id).data, c ∈ base62Chars.data) ∧
      (∃ c cs, (generateShortCode id).data = c :: cs ∧ c ≠ '0') ∧
      (readBase62 (generateShortCode id) : Int) = id + 12345678 := by
  refine ⟨generateShortCode_zero, generateShortCode_numeral id h1 h2, ?_, ?_,
    readBase62_generateShortCode id h1 h2⟩
  · rw [generateShortCode_numeral id h1 h2]
    intro c hc
    simp only [base62Numeral, List.mem_map, List.mem_reverse] at hc
    obtain ⟨d, hd, rfl⟩ := hc
    exact base62Digit_mem d (Nat.digits_lt_base (by decide) hd)
  · rw [generateShortCode_numeral id h1 h2]
    exact base62Numeral_head _ (by omega)

theorem generateShortCode_is_base62_witness :
    generateShortCode 0 = "0" ∧
      generateShortCode 1 = base62Numeral (1 + 12345678 : Int).toNat ∧
      (∀ c ∈ (generateShortCode 1).data, c ∈ base62Chars.data) ∧
      (∃ c cs, (generateShortCode 1).data = c :: cs ∧ c ≠ '0') ∧
      (readBase62 (generateShortCode 1) : Int) = 1 + 12345678 :=
  generateShortCode_is_base62 1 (by decide) (by decide)

/-! ## Claims about the temporary code -/

/-- Claim C9: for any 8 bytes read, `generateTempCode` returns no error and a string
of exactly 8 characters, each from A-Z, a-z, 0-9, `-`, `_` and none the padding `=`,
which is the first 8 characters of the URL-safe base64 encoding of the bytes: read
back with the values of RFC 4648 the 8 characters are the 48 bits of the first six
bytes, and on the bytes of "foobar", on eight bytes 255 and on the bytes 0, 1, ..., 7
they are "Zm9vYmFy", "________" and "AAECAwQF"; and for any result of the read, an
error is returned exactly when the read failed, together with the empty string. -/
theorem generateTempCode_spec (b : Fin 8 → Byte) :
    (generateTempCode (.ok b)).2 = none ∧
      (generateTempCode (.ok b)).1.length = 8 ∧
      (∀ c ∈ (generateTempCode (.ok b)).1.data, urlSafeChar c = true ∧ c ≠ '=') ∧
      (generateTempCode (.ok b)).1.data = (encodeToString (List.ofFn b)).take 8 ∧
      readBase64 (generateTempCode (.ok b)).1.data
        = (b 0).val * 1099511627776 + (b 1).val * 4294967296 + (b 2).val * 16777216
          + (b 3).val * 65536 + (b 4).val * 256 + (b 5).val ∧
      (encodeToString [102, 111, 111, 98, 97, 114] = "Zm9vYmFy".data ∧
        encodeToString [102, 111, 111, 98, 97] = "Zm9vYmE=".data ∧
        encodeToString [102] = "Zg==".data ∧
        generateTempCode (.ok (fun i => [102, 111, 111, 98, 97, 114, 0, 0].getD i.val 0))
          = ("Zm9vYmFy", none) ∧
        generateTempCode (.ok (fun _ => 255)) = ("________", none) ∧
        generateTempCode (.ok (fun i => ⟨i.val, by omega⟩)) = ("AAECAwQF", none)) ∧
      (∀ r, (generateTempCode r).2 ≠ none ↔ ∃ e, r = .error e) ∧
      (∀ r, (generateTempCode r).2 ≠ none → (generateTempCode r).1 = "") := by
  refine ⟨rfl, generateTempCode_length b, ?_, rfl, ?_, by decide, ?_, ?_⟩
  · intro c hc
    rw [generateTempCode_ok] at hc
    simp only [List.mem_cons, List.mem_singleton, List.not_mem_nil, or_false] at hc
    rcases hc with h | h | h | h | h | h | h | h <;> rw [h] <;> exact encodeSextet_urlSafe _
  · rw [generateTempCode_ok]
    simp only [readBase64, List.foldl_cons, List.foldl_nil, urlSafeValue_encodeSextet]
    have h0 := (b 0).isLt
    have h1 := (b 1).isLt
    have h2 := (b 2).isLt
    have h3 := (b 3).isLt
    have h4 := (b 4).isLt
    have h5 := (b 5).isLt
    omega
  · intro r
    cases r with
    | error e => simp [generateTempCode]
    | ok b => simp [generateTempCode]
  · intro r
    cases r with
    | error e => simp [generateTempCode]
    | ok b => simp [generateTempCode]

/-- Claim C10: for `0 ≤ id < 62^7 - 12345678` the final code has at most 7 characters
(exactly 4 for `1 ≤ id ≤ 2430657`), so it differs from every temporary code, and an
UPDATE installing it into the one row with that rowid is accepted whenever all the
other rows hold temporary codes. -/
theorem final_code_never_a_temp_code (id : Int) (h0 : 0 ≤ id) (h1 : id < 3521602260530) :
    (generateShortCode id).length ≤ 7 ∧
      (1 ≤ id → id ≤ 2430657 → (generateShortCode id).length = 4) ∧
      (∀ b : Fin 8 → Byte, (generateTempCode (.ok b)).1 ≠ generateShortCode id) ∧
      (∀ db : Store, (db.filter (fun r : Row => r.id = id)).length ≤ 1 →
        (∀ r ∈ db, r.id ≠ id → ∃ b : Fin 8 → Byte, r.short = (generateTempCode (.ok b)).1) →
        execUpdate db false (generateShortCode id) id
          = some (setShort db (generateShortCode id) id)) := by
  have hlen : (generateShortCode id).length ≤ 7 := by
    by_cases hz : id = 0
    · subst hz; decide
    · have hfit : id + 12345678 ≤ maxInt64 := by
        show id + 12345678 ≤ 9223372036854775807
        omega
      rw [generateShortCode_length id (by omega) hfit]
      have hlt : (id + 12345678).toNat < 62 ^ 7 := by
        have : (62 : Nat) ^ 7 = 3521614606208 := by norm_num
        omega
      have := Nat.log_lt_of_lt_pow (by omega) hlt
      omega
  have hdiff : ∀ b : Fin 8 → Byte, (generateTempCode (.ok b)).1 ≠ generateShortCode id := by
    intro b hb
    have h8 := generateTempCode_length b
    rw [hb] at h8
    omega
  refine ⟨hlen, ?_, hdiff, ?_⟩
  · intro ha hb
    have hfit : id + 12345678 ≤ maxInt64 := by
      show id + 12345678 ≤ 9223372036854775807
      omega
    rw [generateShortCode_length id ha hfit]
    have hlog : Nat.log 62 (id + 12345678).toNat = 3 := by
      apply Nat.log_eq_of_pow_le_of_lt_pow
      · have : (62 : Nat) ^ 3 = 238328 := by norm_num
        omega
      · have : (62 : Nat) ^ (3 + 1) = 14776336 := by norm_num
        omega
    omega
  · intro db hpk htemp
    have hother : ∀ r ∈ db, r.id ≠ id → r.short ≠ generateShortCode id := by
      intro r hr hne
      obtain ⟨b, hb⟩ := htemp r hr hne
      rw [hb]
      exact hdiff b
    have hcount := setShort_filter_length db (generateShortCode id) id hother
    unfold execUpdate
    rw [if_neg]
    simp only [Bool.false_or, Bool.and_eq_true, decide_eq_true_eq, not_and, not_le]
    intro _
    omega

theorem final_code_never_a_temp_code_witness :
    (generateShortCode 1).length ≤ 7 ∧
      (1 ≤ (1 : Int) → (1 : Int) ≤ 2430657 → (generateShortCode 1).length = 4) ∧
      (∀ b : Fin 8 → Byte, (generateTempCode (.ok b)).1 ≠ generateShortCode 1) ∧
      (∀ db : Store, (db.filter (fun r : Row => r.id = 1)).length ≤ 1 →
        (∀ r ∈ db, r.id ≠ 1 → ∃ b : Fin 8 → Byte, r.short = (generateTempCode (.ok b)).1) →
        execUpdate db false (generateShortCode 1) 1
          = some (setShort db (generateShortCode 1) 1)) :=
  final_code_never_a_temp_code 1 (by decide) (by decide)

/-! ## Lemmas on the validator -/

theorem schemeChar_ne_colon (c : Char) (h : schemeChar c = true) : (c != ':') = true := by
  by_cases hc : c = ':'
  · subst hc
    exact absurd h (by decide)
  · simpa using hc

theorem takeWhile_append_stop (p : Char → Bool) (pre : List Char) (x : Char) (cs : List Char)
    (hpre : ∀ c ∈ pre, p c = true) (hx : p x = false) :
    (pre ++ x :: cs).takeWhile p = pre ∧ (pre ++ x :: cs).dropWhile p = x :: cs := by
  induction pre with
  | nil => simp [List.takeWhile, List.dropWhile, hx]
  | cons y ys ih =>
    have hy : p y = true := hpre y (List.mem_cons_self _ _)
    have := ih (fun c hc => hpre c (List.mem_cons_of_mem _ hc))
    simp [List.takeWhile, List.dropWhile, hy, this]

/-- The loop of `getScheme` finds a scheme only in a URL that has one. -/
theorem getSchemeFrom_cases (rawURL : List Char) : ∀ (cs pre : List Char),
    rawURL = pre ++ cs → (∀ c ∈ pre, schemeChar c = true) →
    (∀ c, pre.head? = some c → c.isAlpha = true) →
    getSchemeFrom rawURL cs pre.length = none ∨
      getSchemeFrom rawURL cs pre.length = some ([], rawURL) ∨
      hasSchemeChars rawURL = true := by
  intro cs
  induction cs with
  | nil => intro pre _ _ _; right; left; rfl
  | cons c cs ih =>
    intro pre hraw hall hhead
    have hraw2 : rawURL = (pre ++ [c]) ++ cs := by simp [hraw]
    have hlen : (pre ++ [c]).length = pre.length + 1 := by simp
    unfold getSchemeFrom
    by_cases h1 : c.isAlpha = true
    · rw [if_pos h1, ← hlen]
      apply ih (pre ++ [c]) hraw2
      · intro x hx
        rcases List.mem_append.mp hx with hx | hx
        · exact hall x hx
        · have : x = c := by simpa using hx
          subst this
          simp [schemeChar, h1]
      · intro x hx
        cases pre with
        | nil =>
          have : c = x := by simpa using hx
          subst this
          exact h1
        | cons y ys => exact hhead x (by simpa using hx)
    · rw [if_neg h1]
      by_cases h2 : (c.isDigit || c == '+' || c == '-' || c == '.') = true
      · rw [if_pos h2]
        by_cases h0 : pre.length = 0
        · rw [if_pos h0]; right; left; rfl
        · rw [if_neg h0, ← hlen]
          apply ih (pre ++ [c]) hraw2
          · intro x hx
            rcases List.mem_append.mp hx with hx | hx
            · exact hall x hx
            · have : x = c := by simpa using hx
              subst this
              simp only [Bool.or_eq_true] at h2
              simp only [schemeChar, Bool.or_eq_true]
              tauto
          · intro x hx
            cases pre with
            | nil => simp at h0
            | cons y ys => exact hhead x (by simpa using hx)
      · rw [if_neg h2]
        by_cases h3 : (c == ':') = true
        · rw [if_pos h3]
          by_cases h0 : pre.length = 0
          · rw [if_pos h0]; left; rfl
          · right; right
            have hc : c = ':' := by simpa using h3
            subst hc
            obtain ⟨ht, hd⟩ := takeWhile_append_stop (fun c => c != ':') pre ':' cs
              (fun x hx => schemeChar_ne_colon x (hall x hx)) (by decide)
            unfold hasSchemeChars
            rw [hraw, ht, hd]
            cases pre with
            | nil => simp at h0
            | cons y ys =>
              have hy : y.isAlpha = true := hhead y rfl
              have hys : ys.all schemeChar = true := by
                rw [List.all_eq_true]
                intro x hx
                exact hall x (List.mem_cons_of_mem _ hx)
              simp [hy, hys]
        · rw [if_neg h3]; right; left; rfl

theorem getScheme_of_no_scheme (rawURL : List Char) (h : hasSchemeChars rawURL = false) :
    getScheme rawURL = none ∨ getScheme rawURL = some ([], rawURL) := by
  rcases getSchemeFrom_cases rawURL rawURL [] rfl (by simp) (by simp) with h1 | h1 | h1
  · left; exact h1
  · right; exact h1
  · rw [h] at h1; exact absurd h1 (by decide)

/-- Splitting the query off does not change the first byte. -/
theorem cutQuery_head (l : List Char) (c : Char) (h : (cutQuery l).head? = some c) :
    l.head? = some c := by
  unfold cutQuery at h
  split at h
  · cases l with
    | nil => simp at h
    | cons x xs =>
      cases xs with
      | nil => simp at h
      | cons y ys => simpa [List.dropLast] using h
  · cases l with
    | nil => simp at h
    | cons x xs =>
      by_cases hx : (x != '?') = true
      · simpa [List.takeWhile, hx] using h
      · simp [List.takeWhile, hx] at h

/-- The validator rejects what has no scheme, is no absolute path and is not `*`. -/
theorem parseRequestURI_rejects (parseAuthority : String → Bool) (rawURL : String)
    (hns : hasScheme rawURL = false) (hpath : rawURL.data.head? ≠ some '/')
    (hstar : rawURL ≠ "*") : parseRequestURI parseAuthority rawURL = false := by
  unfold parseRequestURI
  by_cases h1 : stringContainsCTLByte rawURL.data = true
  · rw [if_pos h1]
  · rw [if_neg h1]
    by_cases h2 : rawURL = ""
    · rw [if_pos h2]
    · rw [if_neg h2, if_neg hstar]
      rcases getScheme_of_no_scheme rawURL.data hns with hg | hg
      · rw [hg]
      · rw [hg]
        have hhead : (cutQuery rawURL.data).head? ≠ some '/' :=
          fun hc => hpath (cutQuery_head _ _ hc)
        simp [hhead]

/-! ## Claims about the workflows -/

/-- The table is never changed by a request for a URL it already holds. -/
theorem shortenHandler_present (env : Env) (o : Outcome) (host longURL : String) (db : Store)
    (r : Row) (hv : env.parseRequestURI longURL = true)
    (hf : db.find? (fun r : Row => r.original = longURL) = some r) :
    (shortenHandler env o host longURL db).2 = db ∧
      ((shortenHandler env o host longURL db).1 = shortRedirect env host r.short ∨
        (shortenHandler env o host longURL db).1 = .error "Database error" 500) ∧
      (o.queryFails = false →
        (shortenHandler env o host longURL db).1 = shortRedirect env host r.short) := by
  cases hq : o.queryFails <;> simp [shortenHandler, hv, queryShort, hq, hf]

/-- Claim C4: when `shortenHandler` succeeds on a URL and is run again on the same URL,
the second run leaves the table unchanged and answers either with the very same
redirect, hence the same short code, or, if its query fails, with the 500 of line 173;
and if the table held no row for the URL before the first run, it holds exactly one
afterwards. -/
theorem shortenHandler_idempotent (env : Env) (o1 o2 : Outcome) (host longURL : String)
    (db : Store) (hsucc : (shortenHandler env o1 host longURL db).1.isRedirect = true) :
    (∃ c, (shortenHandler env o1 host longURL db).1 = shortRedirect env host c ∧
        (o2.queryFails = false →
          (shortenHandler env o2 host longURL (shortenHandler env o1 host longURL db).2).1
            = shortRedirect env host c) ∧
        ((shortenHandler env o2 host longURL (shortenHandler env o1 host longURL db).2).1
            = shortRedirect env host c ∨
          (shortenHandler env o2 host longURL (shortenHandler env o1 host longURL db).2).1
            = .error "Database error" 500)) ∧
      (shortenHandler env o2 host longURL (shortenHandler env o1 host longURL db).2).2
        = (shortenHandler env o1 host longURL db).2 ∧
      ((∀ r ∈ db, r.original ≠ longURL) →
        (((shortenHandler env o1 host longURL db).2).filter
          (fun r : Row => r.original = longURL)).length = 1) := by
  obtain ⟨hv, _, hcases⟩ := shortenHandler_redirect_cases env o1 host longURL db hsucc
  rcases hcases with ⟨r, hf, heq⟩ | ⟨hf, _, heq⟩
  · rw [heq]
    obtain ⟨hst, hor, himp⟩ := shortenHandler_present env o2 host longURL db r hv hf
    refine ⟨⟨r.short, rfl, himp, hor⟩, hst, ?_⟩
    intro habs
    exact absurd (by simpa using List.find?_some hf) (habs r (List.mem_of_find?_eq_some hf))
  · rw [heq]
    have hnone : ∀ r ∈ db, decide (r.original = longURL) = false := by
      intro r hr
      have := List.find?_eq_none.mp hf r hr
      simpa using this
    have hfind := find_append_new db
      (Row.mk (nextRowId db) longURL (generateShortCode (nextRowId db)))
      (fun r : Row => r.original = longURL) (by simp) hnone
    obtain ⟨hst, hor, himp⟩ := shortenHandler_present env o2 host longURL _ _ hv hfind
    refine ⟨⟨generateShortCode (nextRowId db), rfl, himp, hor⟩, hst, ?_⟩
    intro _
    rw [filter_append_new db _ (fun r : Row => r.original = longURL) (by simp) hnone]
    rfl

theorem shortenHandler_idempotent_witness :
    (∃ c, (shortenHandler sampleEnv sampleOutcome "sho.rt" "http://example.com/a" []).1
          = shortRedirect sampleEnv "sho.rt" c ∧
        (sampleOutcome.queryFails = false →
          (shortenHandler sampleEnv sampleOutcome "sho.rt" "http://example.com/a"
            (shortenHandler sampleEnv sampleOutcome "sho.rt" "http://example.com/a" []).2).1
            = shortRedirect sampleEnv "sho.rt" c) ∧
        ((shortenHandler sampleEnv sampleOutcome "sho.rt" "http://example.com/a"
            (shortenHandler sampleEnv sampleOutcome "sho.rt" "http://example.com/a" []).2).1
            = shortRedirect sampleEnv "sho.rt" c ∨
          (shortenHandler sampleEnv sampleOutcome "sho.rt" "http://example.com/a"
            (shortenHandler sampleEnv sampleOutcome "sho.rt" "http://example.com/a" []).2).1
            = .error "Database error" 500)) ∧
      (shortenHandler sampleEnv sampleOutcome "sho.rt" "http://example.com/a"
          (shortenHandler sampleEnv sampleOutcome "sho.rt" "http://example.com/a" []).2).2
        = (shortenHandler sampleEnv sampleOutcome "sho.rt" "http://example.com/a" []).2 ∧
      ((∀ r ∈ ([] : Store), r.original ≠ "http://example.com/a") →
        (((shortenHandler sampleEnv sampleOutcome "sho.rt" "http://example.com/a" []).2).filter
          (fun r : Row => r.original = "http://example.com/a")).length = 1) :=
  shortenHandler_idempotent sampleEnv sampleOutcome sampleOutcome "sho.rt"
    "http://example.com/a" [] (by decide)

/-- Claim C5: on a table without a row for the URL, when `shortenHandler` succeeds its
response carries `generateShortCode` of the new rowid, `getLongURL` of that code on the
resulting table returns the URL with no error, and `redirectHandler` answers 301 to the
URL; with an injective `url.QueryEscape` the same holds of any code the response
carries. -/
theorem shorten_then_resolve (env : Env) (o : Outcome) (host longURL : String) (db : Store)
    (habs : ∀ r ∈ db, r.original ≠ longURL)
    (hsucc : (shortenHandler env o host longURL db).1.isRedirect = true) :
    (shortenHandler env o host longURL db).1
        = shortRedirect env host (generateShortCode (nextRowId db)) ∧
      getLongURL (shortenHandler env o host longURL db).2 false
        (generateShortCode (nextRowId db)) = (longURL, none) ∧
      redirectHandler env false (generateShortCode (nextRowId db))
          (shortenHandler env o host longURL db).2
        = (.redirect longURL 301, (shortenHandler env o host longURL db).2) ∧
      (Function.Injective env.queryEscape → ∀ c,
        (shortenHandler env o host longURL db).1 = shortRedirect env host c →
        getLongURL (shortenHandler env o host longURL db).2 false c = (longURL, none) ∧
        redirectHandler env false c (shortenHandler env o host longURL db).2
          = (.redirect longURL 301, (shortenHandler env o host longURL db).2)) := by
  obtain ⟨hv, _, hcases⟩ := shortenHandler_redirect_cases env o host longURL db hsucc
  rcases hcases with ⟨r, hf, _⟩ | ⟨_, hlen, heq⟩
  · exact absurd (by simpa using List.find?_some hf) (habs r (List.mem_of_find?_eq_some hf))
  · rw [heq]
    have hno := no_other_holder db _ (generateShortCode (nextRowId db)) rfl hlen
    have hfind := find_append_new db
      (Row.mk (nextRowId db) longURL (generateShortCode (nextRowId db)))
      (fun r : Row => r.short = generateShortCode (nextRowId db)) (by simp) hno
    have hget : getLongURL
        (db ++ [Row.mk (nextRowId db) longURL (generateShortCode (nextRowId db))]) false
        (generateShortCode (nextRowId db)) = (longURL, none) := by
      simp [getLongURL, hfind]
    have hred : redirectHandler env false (generateShortCode (nextRowId db))
        (db ++ [Row.mk (nextRowId db) longURL (generateShortCode (nextRowId db))])
        = (.redirect longURL 301,
            db ++ [Row.mk (nextRowId db) longURL (generateShortCode (nextRowId db))]) := by
      simp [redirectHandler, hget]
    refine ⟨rfl, hget, hred, ?_⟩
    intro hinj c hc
    have hceq := shortRedirect_injective env hinj host _ _ hc
    rw [← hceq]
    exact ⟨hget, hred⟩

theorem shorten_then_resolve_witness :
    (shortenHandler sampleEnv sampleOutcome "sho.rt" "http://example.com/a" []).1
        = shortRedirect sampleEnv "sho.rt" (generateShortCode (nextRowId [])) ∧
      getLongURL (shortenHandler sampleEnv sampleOutcome "sho.rt" "http://example.com/a" []).2
        false (generateShortCode (nextRowId [])) = ("http://example.com/a", none) ∧
      redirectHandler sampleEnv false (generateShortCode (nextRowId []))
          (shortenHandler sampleEnv sampleOutcome "sho.rt" "http://example.com/a" []).2
        = (.redirect "http://example.com/a" 301,
            (shortenHandler sampleEnv sampleOutcome "sho.rt" "http://example.com/a" []).2) ∧
      (Function.Injective sampleEnv.queryEscape → ∀ c,
        (shortenHandler sampleEnv sampleOutcome "sho.rt" "http://example.com/a" []).1
          = shortRedirect sampleEnv "sho.rt" c →
        getLongURL (shortenHandler sampleEnv sampleOutcome "sho.rt" "http://example.com/a" []).2
          false c = ("http://example.com/a", none) ∧
        redirectHandler sampleEnv false c
            (shortenHandler sampleEnv sampleOutcome "sho.rt" "http://example.com/a" []).2
          = (.redirect "http://example.com/a" 301,
              (shortenHandler sampleEnv sampleOutcome "sho.rt" "http://example.com/a" []).2)) :=
  shorten_then_resolve sampleEnv sampleOutcome "sho.rt" "http://example.com/a" []
    (by simp) (by decide)

/-- Claim C6 as stated fails: "/example.com" has no scheme, so it is not an absolute
URL, yet `url.ParseRequestURI` takes it as an absolute path (as it takes "*") without
consulting `parseAuthority`, and `shortenHandler` stores it and answers 303, not 400. -/
theorem absolute_path_passes_validation :
    hasScheme "/example.com" = false ∧
      parseRequestURI (fun _ => false) "/example.com" = true ∧
      parseRequestURI (fun _ => false) "*" = true ∧
      shortenHandler (netURLEnv false (fun _ => false) (fun u => u)) sampleOutcome "sho.rt"
          "/example.com" []
        = (.redirect "/?short=http://sho.rt/pnfr" 303, [Row.mk 1 "/example.com" "pnfr"]) ∧
      shortenHandler (netURLEnv false (fun _ => false) (fun u => u)) sampleOutcome "sho.rt"
          "/example.com" []
        ≠ (.error "Invalid URL" 400, []) := by
  decide

/-- Claim C6, amended: a URL that has no scheme, does not begin with `/` and is not
`*` is rejected by `url.ParseRequestURI` and answered with 400 "Invalid URL", the table
left as it was; and so is, for any validator, every URL the validator rejects. -/
theorem shortenHandler_invalid (useHTTPS : Bool) (parseAuthority : String → Bool)
    (queryEscape : String → String) (o : Outcome) (host longURL : String) (db : Store)
    (hns : hasScheme longURL = false) (hpath : longURL.data.head? ≠ some '/')
    (hstar : longURL ≠ "*") :
    parseRequestURI parseAuthority longURL = false ∧
      shortenHandler (netURLEnv useHTTPS parseAuthority queryEscape) o host longURL db
        = (.error "Invalid URL" 400, db) ∧
      (∀ (env : Env) (o2 : Outcome) (host2 u : String) (db2 : Store),
        env.parseRequestURI u = false →
        shortenHandler env o2 host2 u db2 = (.error "Invalid URL" 400, db2)) := by
  have hrej := parseRequestURI_rejects parseAuthority longURL hns hpath hstar
  refine ⟨hrej, ?_, ?_⟩
  · simp [shortenHandler, netURLEnv, hrej]
  · intro env o2 host2 u db2 hbad
    simp [shortenHandler, hbad]

theorem shortenHandler_invalid_witness :
    parseRequestURI (fun _ => true) "example.com" = false ∧
      shortenHandler (netURLEnv false (fun _ => true) (fun u => u)) sampleOutcome "sho.rt"
          "example.com" [Row.mk 1 "http://example.com/a" "pnfr"]
        = (.error "Invalid URL" 400, [Row.mk 1 "http://example.com/a" "pnfr"]) ∧
      (∀ (env : Env) (o2 : Outcome) (host2 u : String) (db2 : Store),
        env.parseRequestURI u = false →
        shortenHandler env o2 host2 u db2 = (.error "Invalid URL" 400, db2)) :=
  shortenHandler_invalid false (fun _ => true) (fun u => u) sampleOutcome "sho.rt"
    "example.com" [Row.mk 1 "http://example.com/a" "pnfr"] (by decide) (by decide) (by decide)

/-- Claim C7: for a code that no row holds, `getLongURL` returns `sql.ErrNoRows` and
`redirectHandler` answers 303 to `/?error=` followed by the escaped "Short URL not
found"; the table is unchanged whatever the query does; and for any table and code
the 500 "Database error" is answered exactly when the query fails otherwise. -/
theorem redirectHandler_unknown (env : Env) (shortCode : String) (db : Store)
    (hunknown : ∀ r ∈ db, r.short ≠ shortCode) :
    getLongURL db false shortCode = ("", some .errNoRows) ∧
      redirectHandler env false shortCode db
        = (.redirect ("/?error=" ++ env.queryEscape "Short URL not found") 303, db) ∧
      (∀ f, (redirectHandler env f shortCode db).2 = db) ∧
      (∀ f code (db2 : Store), (redirectHandler env f code db2).1 = .error "Database error" 500
        ↔ (getLongURL db2 f code).2 = some .failure) := by
  have hfind : db.find? (fun r : Row => r.short = shortCode) = none := by
    rw [List.find?_eq_none]
    intro r hr
    simpa using hunknown r hr
  have hget : getLongURL db false shortCode = ("", some .errNoRows) := by
    simp [getLongURL, hfind]
  refine ⟨hget, by simp [redirectHandler, hget], ?_, ?_⟩
  · intro f
    cases f <;> simp [redirectHandler, getLongURL, hfind]
  · intro f code db2
    cases f with
    | true => simp [redirectHandler, getLongURL]
    | false =>
      cases hf : db2.find? (fun r : Row => r.short = code) <;>
        simp [redirectHandler, getLongURL, hf]

theorem redirectHandler_unknown_witness :
    getLongURL [Row.mk 1 "http://example.com/a" "pnfr"] false "pnfs" = ("", some .errNoRows) ∧
      redirectHandler sampleEnv false "pnfs" [Row.mk 1 "http://example.com/a" "pnfr"]
        = (.redirect ("/?error=" ++ sampleEnv.queryEscape "Short URL not found") 303,
            [Row.mk 1 "http://example.com/a" "pnfr"]) ∧
      (∀ f, (redirectHandler sampleEnv f "pnfs" [Row.mk 1 "http://example.com/a" "pnfr"]).2
        = [Row.mk 1 "http://example.com/a" "pnfr"]) ∧
      (∀ f code (db2 : Store),
        (redirectHandler sampleEnv f code db2).1 = .error "Database error" 500
          ↔ (getLongURL db2 f code).2 = some .failure) :=
  redirectHandler_unknown sampleEnv "pnfs" [Row.mk 1 "http://example.com/a" "pnfr"]
    (by decide)

/-- Claim C8, evaluated on the code: from the empty table, a shorten request whose
UPDATE fails answers 500 and leaves the row with its temporary code; the next shorten
request for the same URL succeeds and carries that temporary code ("AAAAAAAA" for eight
zero bytes), while `generateShortCode` of the row's id 1 is "pnfr". -/
theorem temp_code_disclosed_after_failed_update (env : Env) (host longURL : String)
    (hv : env.parseRequestURI longURL = true) :
    run env [] [.shorten ⟨.ok (fun _ => 0), false, false, false, true⟩ host longURL,
                .shorten ⟨.ok (fun _ => 0), false, false, false, false⟩ host longURL]
        = ([.error "Error updating short code" 500, shortRedirect env host "AAAAAAAA"],
           [Row.mk 1 longURL "AAAAAAAA"]) ∧
      (generateTempCode (.ok (fun _ => 0))).1 = "AAAAAAAA" ∧
      generateShortCode 1 = "pnfr" ∧
      generateShortCode 1 ≠ "AAAAAAAA" := by
  have htmp : generateTempCode (.ok (fun _ => 0)) = ("AAAAAAAA", none) := by decide
  have hgen : generateShortCode 1 = "pnfr" := by decide
  refine ⟨?_, by rw [htmp], hgen, by decide⟩
  simp [run, step, shortenHandler, hv, queryShort, htmp, execInsert, nextRowId, maxInt64,
    lastInsertId, hgen, execUpdate]

theorem temp_code_disclosed_after_failed_update_witness :
    run sampleEnv []
        [.shorten ⟨.ok (fun _ => 0), false, false, false, true⟩ "sho.rt" "http://example.com/a",
         .shorten ⟨.ok (fun _ => 0), false, false, false, false⟩ "sho.rt"
           "http://example.com/a"]
        = ([.error "Error updating short code" 500, shortRedirect sampleEnv "sho.rt" "AAAAAAAA"],
           [Row.mk 1 "http://example.com/a" "AAAAAAAA"]) ∧
      (generateTempCode (.ok (fun _ => 0))).1 = "AAAAAAAA" ∧
      generateShortCode 1 = "pnfr" ∧
      generateShortCode 1 ≠ "AAAAAAAA" :=
  temp_code_disclosed_after_failed_update sampleEnv "sho.rt" "http://example.com/a" (by decide)

end UrlShortener
